import Mathlib

/-! Formal model of the agent-orchestrator control-plane slice: the TTL cache
of `packages/web/src/lib/cache.ts`, the `PortManager`, `MetadataService`,
`ProcessManager` and `DashboardManager` services whose TypeScript sources are
given in `docs/REFACTORING_PLAN.md`, and the enrichment fan-out policy.
Machine integers are modelled as `Nat`; timestamps are milliseconds since the
epoch (`Date.now()` is passed explicitly as a `now` argument); JavaScript
`Map`s are association lists kept in insertion order. -/

/-- Association-list lookup, mirroring JavaScript `Map.get`. -/
def mapGet {β : Type} : List (String × β) → String → Option β
  | [], _ => none
  | (k1, v) :: rest, k => if k1 == k then some v else mapGet rest k

/-- Association-list update, mirroring `Map.set`: replaces the first binding of
the key in place, otherwise appends a new binding. -/
def mapSetL {β : Type} : List (String × β) → String → β → List (String × β)
  | [], k, v => [(k, v)]
  | (k1, v1) :: rest, k, v =>
    if k1 == k then (k, v) :: rest else (k1, v1) :: mapSetL rest k v

/-- Association-list removal, mirroring `Map.delete`. -/
def mapDelete {β : Type} (l : List (String × β)) (k : String) : List (String × β) :=
  l.filter (fun kv => !(kv.1 == k))

theorem mapGet_mapSetL {β : Type} (l : List (String × β)) (k : String) (v : β) :
    mapGet (mapSetL l k v) k = some v := by
  induction l with
  | nil => simp [mapSetL, mapGet]
  | cons kv rest ih =>
    obtain ⟨k1, v1⟩ := kv
    by_cases h : (k1 == k) = true
    · simp [mapSetL, h, mapGet]
    · simp [mapSetL, h, mapGet, ih]

theorem mapGet_mapDelete {β : Type} (l : List (String × β)) (k : String) :
    mapGet (mapDelete l k) k = none := by
  induction l with
  | nil => simp [mapDelete, mapGet]
  | cons kv rest ih =>
    obtain ⟨k1, v1⟩ := kv
    by_cases h : (k1 == k) = true
    · simpa [mapDelete, h] using ih
    · simpa [mapDelete, h, mapGet] using ih

/-! Model of `TTLCache` (`packages/web/src/lib/cache.ts`). An entry stores the
value, the `cachedAt` timestamp and the precomputed `expiresAt` timestamp;
the cache itself carries the per-instance `ttlMs` (default 60000). -/

structure CacheEntry (α : Type) where
  value : α
  cachedAt : Nat
  expiresAt : Nat
deriving DecidableEq, Repr

/-- `CachedValue<T>`: value plus age/staleness metadata returned by
`getWithMetadata`. -/
structure CachedValue (α : Type) where
  value : α
  cachedAt : Nat
  ageMs : Nat
  ttlMs : Nat
  stale : Bool
deriving DecidableEq, Repr

structure TTLCache (α : Type) where
  cache : List (String × CacheEntry α)
  ttlMs : Nat
deriving DecidableEq, Repr

/-- `TTLCache.getWithMetadata`: returns `none` when the key is absent; when the
entry is expired (`now > expiresAt`) it is deleted and `none` is returned;
otherwise the value is returned together with its age and staleness.  The TS
staleness test `ageMs > this.ttlMs * 0.75` is scaled by 4 to stay in `Nat`:
`4 * ageMs > 3 * ttlMs`.  The updated cache is returned as the second
component (the TS method mutates `this.cache`). -/
def TTLCache.getWithMetadata {α : Type} (c : TTLCache α) (key : String) (now : Nat) :
    Option (CachedValue α) × TTLCache α :=
  match mapGet c.cache key with
  | none => (none, c)
  | some entry =>
    if now > entry.expiresAt then
      (none, { c with cache := mapDelete c.cache key })
    else
      let ageMs := now - entry.cachedAt
      (some ⟨entry.value, entry.cachedAt, ageMs, c.ttlMs, decide (4 * ageMs > 3 * c.ttlMs)⟩, c)

/-- `TTLCache.get`: value-only wrapper around `getWithMetadata`. -/
def TTLCache.get {α : Type} (c : TTLCache α) (key : String) (now : Nat) :
    Option α × TTLCache α :=
  let r := TTLCache.getWithMetadata c key now
  (r.1.map (fun cv => cv.value), r.2)

/-- `TTLCache.set`: stores the value with `cachedAt := now` and
`expiresAt := now + ttlMs`. -/
def TTLCache.set {α : Type} (c : TTLCache α) (key : String) (value : α) (now : Nat) :
    TTLCache α :=
  { c with cache := mapSetL c.cache key ⟨value, now, now + c.ttlMs⟩ }

/-- `TTLCache.evictExpired`: the periodic sweep removing every expired entry. -/
def TTLCache.evictExpired {α : Type} (c : TTLCache α) (now : Nat) : TTLCache α :=
  { c with cache := c.cache.filter (fun kv => !(decide (now > kv.2.expiresAt))) }

/-- `TTLCache.size`: raw entry count of the backing map (`this.cache.size`),
with no expiry filtering. -/
def TTLCache.size {α : Type} (c : TTLCache α) : Nat :=
  c.cache.length

/-- Number of keys of the cache for which `get` currently returns a value. -/
def TTLCache.liveKeyCount {α : Type} (c : TTLCache α) (now : Nat) : Nat :=
  ((c.cache.map Prod.fst).filter (fun k => ((TTLCache.get c k now).1).isSome)).length

/-- Behaviour of a read on an entry freshly written by `set`, as a function of
the elapsed time `a`: present with age `a` while `a ≤ ttlMs`, evicted
afterwards. -/
theorem getWithMetadata_set {α : Type} (c : TTLCache α) (key : String) (v : α) (t0 a : Nat) :
    ((c.set key v t0).getWithMetadata key (t0 + a)).1 =
      (if a ≤ c.ttlMs then
        some ⟨v, t0, a, c.ttlMs, decide (4 * a > 3 * c.ttlMs)⟩
      else none)
  ∧ mapGet (((c.set key v t0).getWithMetadata key (t0 + a)).2).cache key =
      (if a ≤ c.ttlMs then some ⟨v, t0, t0 + c.ttlMs⟩ else none) := by
  have hget : mapGet (c.set key v t0).cache key = some ⟨v, t0, t0 + c.ttlMs⟩ :=
    mapGet_mapSetL _ _ _
  unfold TTLCache.getWithMetadata
  rw [hget]
  by_cases hexp : a ≤ c.ttlMs
  · have hcond : ¬ (t0 + a > t0 + c.ttlMs) := by omega
    simp [TTLCache.set, hcond, hexp, Nat.add_sub_cancel_left, mapGet_mapSetL]
  · have hcond : t0 + a > t0 + c.ttlMs := by omega
    simp [TTLCache.set, hcond, hexp, mapGet_mapDelete]

/-- C8: an entry written at `t0` with TTL 60000 ms is returned at `t0+46000`
with `stale = true` and `ageMs = 46000`; at `t0+61000` it is absent and
evicted; in general an entry whose age exceeds its TTL is never returned by
`get` or `getWithMetadata` and is deleted by the access that observes it
expired; staleness holds exactly when the age exceeds `0.75 *` TTL. -/
theorem c8_cache_ttl_semantics (c : TTLCache Nat) (key : String) (v : Nat) (t0 : Nat) :
    (c.ttlMs = 60000 →
      ((c.set key v t0).getWithMetadata key (t0 + 46000)).1 =
          some ⟨v, t0, 46000, 60000, true⟩
      ∧ ((c.set key v t0).getWithMetadata key (t0 + 61000)).1 = none
      ∧ mapGet (((c.set key v t0).getWithMetadata key (t0 + 61000)).2).cache key = none)
  ∧ (∀ a, c.ttlMs < a →
      ((c.set key v t0).get key (t0 + a)).1 = none
      ∧ ((c.set key v t0).getWithMetadata key (t0 + a)).1 = none
      ∧ mapGet (((c.set key v t0).getWithMetadata key (t0 + a)).2).cache key = none)
  ∧ (∀ a cv, a ≤ c.ttlMs → ((c.set key v t0).getWithMetadata key (t0 + a)).1 = some cv →
      (cv.stale = true ↔ (a : ℚ) > 0.75 * (c.ttlMs : ℚ))) := by
  refine ⟨?_, ?_, ?_⟩
  · intro httl
    have h46 := getWithMetadata_set c key v t0 46000
    have h61 := getWithMetadata_set c key v t0 61000
    rw [httl] at h46 h61
    refine ⟨?_, ?_, ?_⟩
    · rw [h46.1]; norm_num
    · rw [h61.1]; norm_num
    · rw [h61.2]; norm_num
  · intro a ha
    have h := getWithMetadata_set c key v t0 a
    have hno : ¬ a ≤ c.ttlMs := by omega
    refine ⟨?_, ?_, ?_⟩
    · simp [TTLCache.get, h.1, hno]
    · simp [h.1, hno]
    · simp [h.2, hno]
  · intro a cv hle hsome
    have h := getWithMetadata_set c key v t0 a
    rw [h.1, if_pos hle] at hsome
    have hcv : cv.stale = decide (4 * a > 3 * c.ttlMs) := by
      cases hsome; rfl
    rw [hcv]
    rw [decide_eq_true_eq]
    constructor
    · intro hgt
      have : (3 * c.ttlMs : ℚ) < 4 * a := by exact_mod_cast hgt
      nlinarith
    · intro hgt
      have : (3 * c.ttlMs : ℚ) < 4 * a := by nlinarith
      exact_mod_cast this

/-- Witness for C8 at the concrete cache `⟨[], 60000⟩`, key `"k"`, value 42,
written at `t0 = 0`. -/
theorem c8_cache_ttl_semantics_witness :
    (((TTLCache.mk ([] : List (String × CacheEntry Nat)) 60000).set "k" 42 0).getWithMetadata
        "k" (0 + 46000)).1 = some ⟨42, 0, 46000, 60000, true⟩
  ∧ (((TTLCache.mk ([] : List (String × CacheEntry Nat)) 60000).set "k" 42 0).get
        "k" (0 + 61000)).1 = none
  ∧ ((46000 : Nat) ≤ 60000)
  ∧ (true = true ↔ ((46000 : Nat) : ℚ) > 0.75 * ((60000 : Nat) : ℚ)) := by
  have h := c8_cache_ttl_semantics (TTLCache.mk [] 60000) "k" 42 0
  refine ⟨(h.1 rfl).1, (h.2.1 61000 (by norm_num)).1, by norm_num, ?_⟩
  have hs := h.2.2 46000 ⟨42, 0, 46000, 60000, true⟩ (by norm_num) (h.1 rfl).1
  simpa using hs

/-- C10: `TTLCache.size` counts raw stored entries, including expired ones not
yet evicted: here a cache holds one entry whose age (61000 ms) exceeds its TTL
(60000 ms), `size` is 1, yet `get` returns nothing for any key, so `size` is
strictly greater than the number of keys with a live value; the eager sweep
`evictExpired` would remove it. -/
theorem c10_size_counts_expired_entries :
    ((TTLCache.mk ([] : List (String × CacheEntry Nat)) 60000).set "k" 42 0).size = 1
  ∧ (((TTLCache.mk ([] : List (String × CacheEntry Nat)) 60000).set "k" 42 0).get
        "k" 61000).1 = none
  ∧ ((TTLCache.mk ([] : List (String × CacheEntry Nat)) 60000).set "k" 42 0).liveKeyCount
        61000 = 0
  ∧ ((TTLCache.mk ([] : List (String × CacheEntry Nat)) 60000).set "k" 42 0).liveKeyCount
        61000
      < ((TTLCache.mk ([] : List (String × CacheEntry Nat)) 60000).set "k" 42 0).size
  ∧ (((TTLCache.mk ([] : List (String × CacheEntry Nat)) 60000).set "k" 42 0).evictExpired
        61000).size = 0 := by
  refine ⟨rfl, ?_, ?_, ?_, rfl⟩ <;> decide

/-! Model of `PortManager` (REFACTORING_PLAN.md § 2). The instance state
`allocatedPorts : Set<number>` is the explicit `alloc : List Nat` argument
(membership is what matters); OS-level availability (`isPortAvailable`) is the
oracle `osAvail : Nat → Bool`. -/

/-- Loop body of `PortManager.findNextAvailable` over the remaining candidate
offsets: a candidate already in `alloc` is skipped (`continue`), an OS-available
one is added to the claimed set and returned, otherwise the loop advances. -/
def PortManager.scanOffsets (alloc : List Nat) (osAvail : Nat → Bool) (preferred : Nat) :
    List Nat → Option (Nat × List Nat)
  | [] => none
  | offset :: rest =>
    let port := preferred + offset
    if port ∈ alloc then PortManager.scanOffsets alloc osAvail preferred rest
    else if osAvail port then some (port, port :: alloc)
    else PortManager.scanOffsets alloc osAvail preferred rest

/-- The error message thrown when the attempt budget is exhausted. -/
def PortManager.noPortMsg (preferred maxAttempts : Nat) : String :=
  "Could not find available port near " ++ toString preferred ++ " after "
    ++ toString maxAttempts ++ " attempts"

/-- `PortManager.findNextAvailable(preferred, maxAttempts = 10)`: scans
`preferred, preferred+1, …` for `maxAttempts` offsets. -/
def PortManager.findNextAvailable (alloc : List Nat) (osAvail : Nat → Bool)
    (preferred maxAttempts : Nat) : Except String (Nat × List Nat) :=
  match PortManager.scanOffsets alloc osAvail preferred (List.range maxAttempts) with
  | some (port, newAlloc) => Except.ok (port, newAlloc)
  | none => Except.error (PortManager.noPortMsg preferred maxAttempts)

/-- `findNextAvailable` together with its effect on `this.allocatedPorts`: the
claimed set is extended only on success; the throw leaves it untouched. -/
def PortManager.allocate (alloc : List Nat) (osAvail : Nat → Bool)
    (preferred maxAttempts : Nat) : Except String Nat × List Nat :=
  match PortManager.findNextAvailable alloc osAvail preferred maxAttempts with
  | Except.ok (port, newAlloc) => (Except.ok port, newAlloc)
  | Except.error e => (Except.error e, alloc)

theorem scanOffsets_skip (alloc : List Nat) (osAvail : Nat → Bool) (preferred : Nat)
    (l1 l2 : List Nat)
    (hblocked : ∀ o ∈ l1, preferred + o ∈ alloc ∨ osAvail (preferred + o) = false) :
    PortManager.scanOffsets alloc osAvail preferred (l1 ++ l2)
      = PortManager.scanOffsets alloc osAvail preferred l2 := by
  induction l1 with
  | nil => rfl
  | cons o rest ih =>
    have ho := hblocked o (List.mem_cons_self o rest)
    have hrest : ∀ o ∈ rest, preferred + o ∈ alloc ∨ osAvail (preferred + o) = false :=
      fun x hx => hblocked x (List.mem_cons_of_mem o hx)
    by_cases hm : preferred + o ∈ alloc
    · simpa [PortManager.scanOffsets, hm] using ih hrest
    · have hav : osAvail (preferred + o) = false := ho.resolve_left hm
      simpa [PortManager.scanOffsets, hm, hav] using ih hrest

theorem scanOffsets_ok (alloc : List Nat) (osAvail : Nat → Bool) (preferred : Nat)
    (l : List Nat) (port : Nat) (S : List Nat)
    (h : PortManager.scanOffsets alloc osAvail preferred l = some (port, S)) :
    port ∉ alloc ∧ S = port :: alloc ∧ osAvail port = true := by
  induction l with
  | nil => simp [PortManager.scanOffsets] at h
  | cons o rest ih =>
    by_cases hm : preferred + o ∈ alloc
    · exact ih (by simpa [PortManager.scanOffsets, hm] using h)
    · by_cases hav : osAvail (preferred + o) = true
      · rw [PortManager.scanOffsets] at h
        simp only [hm, if_false, hav, if_true] at h
        obtain ⟨hport, hS⟩ := Prod.mk.injEq .. ▸ Option.some.injEq .. ▸ h
        subst hport
        exact ⟨hm, hS.symm ▸ rfl, hav⟩
      · have hav' : osAvail (preferred + o) = false := by
          cases hx : osAvail (preferred + o) with
          | true => exact absurd hx hav
          | false => rfl
        exact ih (by simpa [PortManager.scanOffsets, hm, hav'] using h)

/-- C3 counterexample: the claim as stated allows `k = 9` — preferred port 5000
with 5000‑5009 all OS-bound and 5010 free — and predicts `allocate` returns
5010; the code exhausts its 10-attempt budget on 5000‑5009 and throws without
ever probing 5010, leaving the claimed set empty. -/
theorem c3_budget_counterexample :
    PortManager.allocate [] (fun p => decide (5010 ≤ p)) 5000 10
      = (Except.error (PortManager.noPortMsg 5000 10), [])
  ∧ PortManager.allocate [] (fun p => decide (5010 ≤ p)) 5000 10
      ≠ (Except.ok 5010, [5010]) := by
  have h1 : PortManager.allocate [] (fun p => decide (5010 ≤ p)) 5000 10
      = (Except.error (PortManager.noPortMsg 5000 10), []) := rfl
  refine ⟨h1, ?_⟩
  rw [h1]
  intro h
  have := congrArg Prod.fst h
  simp at this

/-- C3 (amended: the blocked prefix `P..P+k` must fit inside the 10-attempt
budget together with the free candidate, i.e. `k + 1 < 10`): if `P..P+k` are
each claimed or OS-bound and `P+k+1` is free and unclaimed, `allocate(P)`
returns `P+k+1` and records it claimed; and any later `allocate` call, as long
as that port is still in the claimed set, never returns it again. -/
theorem c3_allocate_skips_to_next_free (alloc : List Nat) (osAvail : Nat → Bool)
    (preferred k : Nat) (hk : k + 1 < 10)
    (hblocked : ∀ i, i ≤ k → preferred + i ∈ alloc ∨ osAvail (preferred + i) = false)
    (hfree : preferred + (k + 1) ∉ alloc)
    (havail : osAvail (preferred + (k + 1)) = true) :
    PortManager.allocate alloc osAvail preferred 10
      = (Except.ok (preferred + (k + 1)), (preferred + (k + 1)) :: alloc)
  ∧ ∀ (alloc2 : List Nat) (osAvail2 : Nat → Bool) (pref2 m : Nat) (S : List Nat),
      preferred + (k + 1) ∈ alloc2 →
      PortManager.allocate alloc2 osAvail2 pref2 m ≠ (Except.ok (preferred + (k + 1)), S) := by
  constructor
  · have hsplit : List.range 10 = (List.range (k + 1) ++ [k + 1]) ++
        (List.range (10 - (k + 2))).map ((k + 2) + ·) := by
      have h10 : 10 = (k + 2) + (10 - (k + 2)) := by omega
      conv_lhs => rw [h10]
      rw [List.range_add, List.range_succ]
    have hscan : PortManager.scanOffsets alloc osAvail preferred (List.range 10)
        = some (preferred + (k + 1), (preferred + (k + 1)) :: alloc) := by
      rw [hsplit, List.append_assoc]
      rw [scanOffsets_skip alloc osAvail preferred (List.range (k + 1)) _
        (fun o ho => hblocked o (by simpa using Nat.lt_succ_iff.mp (List.mem_range.mp ho)))]
      simp [PortManager.scanOffsets, hfree, havail]
    simp [PortManager.allocate, PortManager.findNextAvailable, hscan]
  · intro alloc2 osAvail2 pref2 m S hmem heq
    rcases hscan2 : PortManager.scanOffsets alloc2 osAvail2 pref2 (List.range m) with _ | ⟨q, S2⟩
    · rw [PortManager.allocate, PortManager.findNextAvailable, hscan2] at heq
      have := congrArg Prod.fst heq
      simp at this
    · rw [PortManager.allocate, PortManager.findNextAvailable, hscan2] at heq
      have h1 := congrArg Prod.fst heq
      simp only [Except.ok.injEq] at h1
      have hnot := (scanOffsets_ok alloc2 osAvail2 pref2 (List.range m) q S2 hscan2).1
      exact hnot (h1 ▸ hmem)

/-- Witness for C3: preferred 5000 with 5000‑5002 OS-bound and 5003 free
(`k = 2`): allocate returns 5003 and claims it, and with 5003 claimed a later
allocate never returns it. -/
theorem c3_allocate_skips_to_next_free_witness :
    PortManager.allocate [] (fun p => decide (5003 ≤ p)) 5000 10
      = (Except.ok 5003, [5003])
  ∧ PortManager.allocate [5003] (fun p => decide (5003 ≤ p)) 5000 10
      ≠ (Except.ok 5003, [5003]) := by
  have h := c3_allocate_skips_to_next_free [] (fun p => decide (5003 ≤ p)) 5000 2
    (by norm_num)
    (by intro i hi; right; interval_cases i <;> decide)
    (by simp)
    (by decide)
  exact ⟨h.1, h.2 [5003] (fun p => decide (5003 ≤ p)) 5000 10 [5003] (by simp)⟩

/-- C4: when all 10 candidates `P..P+9` are claimed or OS-bound, `allocate`
fails with the "could not find available port near P" error and the claimed
set is returned exactly as it was. -/
theorem c4_allocate_exhausts_budget (alloc : List Nat) (osAvail : Nat → Bool)
    (preferred : Nat)
    (hall : ∀ i, i < 10 → preferred + i ∈ alloc ∨ osAvail (preferred + i) = false) :
    PortManager.allocate alloc osAvail preferred 10
      = (Except.error (PortManager.noPortMsg preferred 10), alloc) := by
  have hscan : PortManager.scanOffsets alloc osAvail preferred (List.range 10) = none := by
    have := scanOffsets_skip alloc osAvail preferred (List.range 10) []
      (fun o ho => hall o (List.mem_range.mp ho))
    simpa [PortManager.scanOffsets] using this
  simp [PortManager.allocate, PortManager.findNextAvailable, hscan]

/-- Witness for C4: no port near 7000 is OS-available and none is claimed;
the call fails and the (empty) claimed set is unchanged. -/
theorem c4_allocate_exhausts_budget_witness :
    PortManager.allocate [] (fun _ => false) 7000 10
      = (Except.error (PortManager.noPortMsg 7000 10), []) :=
  c4_allocate_exhausts_budget [] (fun _ => false) 7000
    (fun _ _ => Or.inr rfl)

/-! Model of `ProcessManager` (REFACTORING_PLAN.md § 5). A supervised child
process is abstracted by its exit time `exitTime : Option Nat` in milliseconds
from the moment `kill` is invoked: `none` for a process that ignores the
graceful signal and never exits, `some d` for a process that is dead from time
`d` on (`some 0`: already dead when `kill` was called). `process.kill` on a
dead pid throws `ESRCH` and delivers nothing. -/

/-- Whether the process is still alive at time `t`. -/
def aliveAt (exitTime : Option Nat) (t : Nat) : Bool :=
  match exitTime with
  | none => true
  | some d => decide (t < d)

/-- `ProcessManager.waitForExit(pid, timeout)`: polls `process.kill(pid, 0)`
every 100 ms; the rejection timer, registered first, fires at `timeout`.
Resolves (`true`) iff some poll strictly before the timeout observes the
process dead; otherwise rejects (`false`) at the deadline. -/
def ProcessManager.waitForExit (exitTime : Option Nat) (timeout : Nat) : Bool :=
  (List.range (timeout / 100)).any
    (fun i => !(aliveAt exitTime ((i + 1) * 100)) && decide ((i + 1) * 100 < timeout))

/-- Outcome of one `ProcessManager.kill` call: whether the graceful signal was
delivered, whether the forced `SIGKILL` branch was reached, whether a forced
kill was actually delivered to a live process, and whether the call returned
without raising (it always does: every `process.kill` failure is caught). -/
structure KillResult where
  gracefulDelivered : Bool
  forcedAttempted : Bool
  forcedDelivered : Bool
  ok : Bool
deriving DecidableEq, Repr

/-- `ProcessManager.kill(pid)`: send `SIGTERM`; await `waitForExit(pid, 5000)`;
on any failure (signal to a dead pid, or poll timeout) fall into the catch and
attempt an unconditional `SIGKILL`, itself wrapped in a swallow-all catch. -/
def ProcessManager.kill (exitTime : Option Nat) : KillResult :=
  if aliveAt exitTime 0 then
    if ProcessManager.waitForExit exitTime 5000 then
      ⟨true, false, false, true⟩
    else
      ⟨true, true, aliveAt exitTime 5000, true⟩
  else
    ⟨false, true, false, true⟩

/-- Signal syscalls attempted by a termination routine, in order. -/
inductive Sig where
  | term
  | kill
deriving DecidableEq, Repr

/-- The signal syscalls `ProcessManager.kill` attempts: `SIGTERM` always, and
`SIGKILL` whenever the try-block fails (poll timeout, or the initial signal
finding the process already dead). -/
def ProcessManager.killSignals (exitTime : Option Nat) : List Sig :=
  if aliveAt exitTime 0 then
    if ProcessManager.waitForExit exitTime 5000 then [Sig.term]
    else [Sig.term, Sig.kill]
  else [Sig.term, Sig.kill]

/-- C5: `ProcessManager.kill` never raises; a forced kill is delivered only to
a process still alive at the 5-second deadline; a process that exits within
1 s of the graceful signal never even reaches the forced-kill branch (the 100 ms
polls detect the exit before the deadline); and a process already dead when the
signal is sent yields a successful return with nothing delivered. -/
theorem c5_two_phase_terminate (exitTime : Option Nat) :
    (ProcessManager.kill exitTime).ok = true
  ∧ ((ProcessManager.kill exitTime).forcedDelivered = true → aliveAt exitTime 5000 = true)
  ∧ (∀ d, exitTime = some d → 0 < d → d ≤ 1000 →
      (ProcessManager.kill exitTime).forcedAttempted = false
      ∧ (ProcessManager.kill exitTime).forcedDelivered = false)
  ∧ (aliveAt exitTime 0 = false →
      (ProcessManager.kill exitTime).ok = true
      ∧ (ProcessManager.kill exitTime).forcedDelivered = false) := by
  refine ⟨?_, ?_, ?_, ?_⟩
  · unfold ProcessManager.kill
    split_ifs <;> rfl
  · unfold ProcessManager.kill
    split_ifs with h1 h2
    · intro h; cases h
    · exact fun h => h
    · intro h; cases h
  · intro d hd hdpos hdle
    subst hd
    have halive : aliveAt (some d) 0 = true := by
      simp [aliveAt, hdpos]
    have hwait : ProcessManager.waitForExit (some d) 5000 = true := by
      unfold ProcessManager.waitForExit
      rw [List.any_eq_true]
      refine ⟨9, by rw [List.mem_range]; norm_num, ?_⟩
      have h1 : aliveAt (some d) ((9 + 1) * 100) = false := by
        simp only [aliveAt, decide_eq_false_iff_not]
        omega
      rw [h1]
      decide
    unfold ProcessManager.kill
    rw [halive, hwait]
    exact ⟨rfl, rfl⟩
  · intro hdead
    unfold ProcessManager.kill
    rw [hdead]
    exact ⟨rfl, rfl⟩

/-- Witness for C5 at a process that exits 1000 ms after the graceful signal,
and at a process already dead at signal time. -/
theorem c5_two_phase_terminate_witness :
    (ProcessManager.kill (some 1000)).ok = true
  ∧ (ProcessManager.kill (some 1000)).forcedAttempted = false
  ∧ (ProcessManager.kill (some 0)).ok = true
  ∧ (ProcessManager.kill (some 0)).forcedDelivered = false := by
  have h1000 := c5_two_phase_terminate (some 1000)
  have h0 := c5_two_phase_terminate (some 0)
  have hd : aliveAt (some 0) 0 = false := by decide
  exact ⟨h1000.1, (h1000.2.2.1 1000 rfl (by norm_num) (by norm_num)).1,
    (h0.2.2.2 hd).1, (h0.2.2.2 hd).2⟩

/-! Model of `DashboardManager.stop` (REFACTORING_PLAN.md § 3). The OS listener
table is the oracle `listeners : Nat → List String`, giving the pids that
`lsof -ti :port` prints for a port (empty when `lsof` fails because the port
is unused — that failure is caught and the loop continues). -/

structure ServicePorts where
  dashboard : Nat
  terminalWs : Nat
  directTerminalWs : Nat
deriving DecidableEq, Repr

/-- The `allPorts` array built at the top of `stop`. -/
def DashboardManager.allPorts (ports : ServicePorts) : List Nat :=
  [ports.dashboard, ports.terminalWs, ports.directTerminalWs]

/-- The `allPids` accumulator: pids of every bundle port, concatenated in port
order (`allPids.push(...pids)`). -/
def DashboardManager.allPids (listeners : Nat → List String) (ports : ServicePorts) :
    List String :=
  (DashboardManager.allPorts ports).foldl (fun acc port => acc ++ listeners port) []

/-- `[...new Set(allPids)]`: JavaScript `Set` deduplication, keeping the first
occurrence of each element in insertion order. -/
def jsSetDedup (l : List String) : List String :=
  l.foldl (fun acc x => if x ∈ acc then acc else acc ++ [x]) []

/-- The `uniquePids` list actually passed to `exec("kill", uniquePids)`. -/
def DashboardManager.uniquePids (listeners : Nat → List String) (ports : ServicePorts) :
    List String :=
  jsSetDedup (DashboardManager.allPids listeners ports)

/-- How one `stop` call ends: the "Dashboard not running" report, the
"stopped" report, or the "Could not stop some processes" report when the
`kill` exec fails. All three are ordinary returns; nothing is thrown. -/
inductive StopOutcome where
  | notRunning
  | stopped
  | killFailed
deriving DecidableEq, Repr

/-- `DashboardManager.stop`: collect pids per port, report "not running" when
none were found, otherwise `exec("kill", uniquePids)` once, downgrading an exec
failure (`killExecOk = false`) to a warning log. -/
def DashboardManager.stop (listeners : Nat → List String) (ports : ServicePorts)
    (killExecOk : Bool) : StopOutcome :=
  if DashboardManager.allPids listeners ports = [] then StopOutcome.notRunning
  else if killExecOk then StopOutcome.stopped
  else StopOutcome.killFailed

/-- The signal syscalls one `stop` call aims at a given pid: a single `SIGTERM`
(the default signal of the `kill` command) if the pid was discovered on some
bundle port, nothing otherwise — independent of how the process reacts. -/
def DashboardManager.stopSignalsTo (listeners : Nat → List String) (ports : ServicePorts)
    (pid : String) : List Sig :=
  if DashboardManager.allPids listeners ports = [] then []
  else if pid ∈ DashboardManager.uniquePids listeners ports then [Sig.term]
  else []

theorem jsSetDedup_foldl_nodup (l acc : List String) (hacc : acc.Nodup) :
    (l.foldl (fun acc x => if x ∈ acc then acc else acc ++ [x]) acc).Nodup := by
  induction l generalizing acc with
  | nil => exact hacc
  | cons x rest ih =>
    by_cases hx : x ∈ acc
    · simpa [List.foldl, hx] using ih acc hacc
    · have h2 : (acc ++ [x]).Nodup := by
        rw [List.nodup_append]
        refine ⟨hacc, List.nodup_singleton x, ?_⟩
        intro a ha hax
        exact hx (List.mem_singleton.mp hax ▸ ha)
      simpa [List.foldl, hx] using ih (acc ++ [x]) h2

theorem jsSetDedup_foldl_mem (l : List String) :
    ∀ (acc : List String) (y : String),
      (y ∈ l.foldl (fun acc x => if x ∈ acc then acc else acc ++ [x]) acc)
        ↔ (y ∈ acc ∨ y ∈ l) := by
  induction l with
  | nil => intro acc y; simp
  | cons x rest ih =>
    intro acc y
    by_cases hx : x ∈ acc
    · rw [List.foldl, if_pos hx, ih]
      constructor
      · rintro (h | h)
        · exact Or.inl h
        · exact Or.inr (List.mem_cons_of_mem x h)
      · rintro (h | h)
        · exact Or.inl h
        · rcases List.mem_cons.mp h with h | h
          · exact Or.inl (h ▸ hx)
          · exact Or.inr h
    · rw [List.foldl, if_neg hx, ih]
      constructor
      · rintro (h | h)
        · rcases List.mem_append.mp h with h | h
          · exact Or.inl h
          · exact Or.inr (List.mem_cons.mpr (Or.inl (List.mem_singleton.mp h)))
        · exact Or.inr (List.mem_cons_of_mem x h)
      · rintro (h | h)
        · exact Or.inl (List.mem_append.mpr (Or.inl h))
        · rcases List.mem_cons.mp h with h | h
          · exact Or.inl (List.mem_append.mpr (Or.inr (List.mem_singleton.mpr h)))
          · exact Or.inr h

theorem jsSetDedup_nodup (l : List String) : (jsSetDedup l).Nodup :=
  jsSetDedup_foldl_nodup l [] List.nodup_nil

theorem jsSetDedup_mem (l : List String) (y : String) : y ∈ jsSetDedup l ↔ y ∈ l := by
  rw [jsSetDedup, jsSetDedup_foldl_mem]
  simp

/-- The concrete bundle used to exercise `stop`: default ports, one listener
process `"123"` bound to the dashboard port only. -/
def examplePorts : ServicePorts := ⟨3000, 3001, 3003⟩

def exampleListeners : Nat → List String :=
  fun port => if port = 3000 then ["123"] else []

/-- C6 counterexample: `stop` aims exactly one `SIGTERM` at the discovered pid
`"123"`, while the Process Supervisor's two-phase protocol applied to a process
that ignores the graceful signal (`exitTime = none`) sends `SIGTERM` and then
escalates to `SIGKILL`; the two signal sequences differ, so `stop` does not
terminate the pid via the two-phase graceful-then-forceful protocol. -/
theorem c6_stop_not_two_phase_counterexample :
    DashboardManager.stopSignalsTo exampleListeners examplePorts "123" = [Sig.term]
  ∧ ProcessManager.killSignals none = [Sig.term, Sig.kill]
  ∧ DashboardManager.stopSignalsTo exampleListeners examplePorts "123"
      ≠ ProcessManager.killSignals none := by
  refine ⟨rfl, ?_, ?_⟩ <;> decide

/-- C6 (amended: `stop` discovers the OS-level listener pids bound to each of
the bundle's ports, deduplicates them across all ports — `uniquePids` has no
duplicates and holds exactly the discovered pids — and terminates each unique
id with a single batched `kill` invocation delivering one graceful `SIGTERM`,
not via the Process Supervisor's two-phase protocol). -/
theorem c6_stop_dedups_and_signals_once (listeners : Nat → List String)
    (ports : ServicePorts) (pid : String) :
    (DashboardManager.uniquePids listeners ports).Nodup
  ∧ (pid ∈ DashboardManager.uniquePids listeners ports
      ↔ pid ∈ DashboardManager.allPids listeners ports)
  ∧ (pid ∈ DashboardManager.uniquePids listeners ports →
      DashboardManager.stopSignalsTo listeners ports pid = [Sig.term])
  ∧ (pid ∉ DashboardManager.uniquePids listeners ports →
      DashboardManager.stopSignalsTo listeners ports pid = []) := by
  refine ⟨jsSetDedup_nodup _, jsSetDedup_mem _ _, ?_, ?_⟩
  · intro hmem
    have hne : DashboardManager.allPids listeners ports ≠ [] := by
      intro hnil
      have hmem2 : pid ∈ DashboardManager.allPids listeners ports :=
        (jsSetDedup_mem _ _).mp hmem
      rw [hnil] at hmem2
      exact absurd hmem2 (List.not_mem_nil pid)
    rw [DashboardManager.stopSignalsTo, if_neg hne, if_pos hmem]
  · intro hmem
    rw [DashboardManager.stopSignalsTo]
    by_cases hnil : DashboardManager.allPids listeners ports = []
    · rw [if_pos hnil]
    · rw [if_neg hnil, if_neg hmem]

/-- Witness for C6's amended theorem at the concrete bundle: pid `"123"` is
in `uniquePids` and receives exactly one `SIGTERM`; pid `"999"` was not
discovered and receives nothing. -/
theorem c6_stop_dedups_and_signals_once_witness :
    DashboardManager.stopSignalsTo exampleListeners examplePorts "123" = [Sig.term]
  ∧ DashboardManager.stopSignalsTo exampleListeners examplePorts "999" = [] := by
  have h123 := c6_stop_dedups_and_signals_once exampleListeners examplePorts "123"
  have h999 := c6_stop_dedups_and_signals_once exampleListeners examplePorts "999"
  exact ⟨h123.2.2.1 (by decide), h999.2.2.2 (by decide)⟩

/-- C7: on a bundle none of whose ports has any listener, `stop` returns the
"Dashboard not running" report instead of failing, sends no signal to any pid
(so the OS state is untouched), and a second consecutive call returns the same
successful report; the model is a total function, reflecting that every
`exec` failure inside `stop` is caught. -/
theorem c7_stop_idempotent_when_nothing_running (listeners : Nat → List String)
    (ports : ServicePorts) (killExecOk1 killExecOk2 : Bool)
    (h1 : listeners ports.dashboard = [])
    (h2 : listeners ports.terminalWs = [])
    (h3 : listeners ports.directTerminalWs = []) :
    DashboardManager.stop listeners ports killExecOk1 = StopOutcome.notRunning
  ∧ (∀ pid, DashboardManager.stopSignalsTo listeners ports pid = [])
  ∧ DashboardManager.stop listeners ports killExecOk2 = StopOutcome.notRunning := by
  have hpids : DashboardManager.allPids listeners ports = [] := by
    rw [DashboardManager.allPids, DashboardManager.allPorts]
    simp [h1, h2, h3]
  refine ⟨?_, ?_, ?_⟩
  · rw [DashboardManager.stop, if_pos hpids]
  · intro pid
    rw [DashboardManager.stopSignalsTo, if_pos hpids]
  · rw [DashboardManager.stop, if_pos hpids]

/-- Witness for C7: an empty listener table on the default bundle ports. -/
theorem c7_stop_idempotent_when_nothing_running_witness :
    DashboardManager.stop (fun _ => []) examplePorts true = StopOutcome.notRunning
  ∧ DashboardManager.stop (fun _ => []) examplePorts false = StopOutcome.notRunning := by
  have h := c7_stop_idempotent_when_nothing_running (fun _ => []) examplePorts true false
    rfl rfl rfl
  exact ⟨h.1, h.2.2⟩

/-! Model of `MetadataService` (REFACTORING_PLAN.md § 4) under the
single-threaded cooperative scheduling of Node.js. A session metadata record
is a shallow field map; `updateMetadata(dataDir, sessionId, updates)` runs
`acquireLock`, then synchronously read-merge-writes, then `releaseLock` in a
`finally`. The lock map `locks : Map<string, Promise<void>>` is modelled by a
map from session id to a promise id together with the set of promise ids that
have been resolved. Faithfully to the source, `releaseLock` deletes the map
entry but never resolves the promise: the code creates the promise with a
local `releaseFn` resolver that is never stored, and its body carries only a
comment admitting the simplification. -/

/-- A session metadata record: shallow field-to-value map. -/
abbrev SessionMetadata := List (String × String)

/-- `{ ...existing, ...updates }`: shallow merge; fields of `updates`
overwrite those of `existing` in place, new fields are appended. -/
def mergeRecord (existing updates : SessionMetadata) : SessionMetadata :=
  existing.map (fun kv =>
    match mapGet updates kv.1 with
    | some v => (kv.1, v)
    | none => kv)
  ++ updates.filter (fun kv => (mapGet existing kv.1).isNone)

/-- Program counter of one in-flight `updateMetadata` call: at the
`acquireLock` while-loop check; suspended awaiting a lock promise; holding the
lock with the synchronous read-merge-write-release continuation pending; or
returned. -/
inductive TaskPC where
  | acquiring
  | waitingOn (p : Nat)
  | locked
  | done
deriving DecidableEq, Repr

/-- One `updateMetadata(dataDir, sessionId, updates)` call in flight. -/
structure MSTask where
  sessionId : String
  updates : SessionMetadata
  pc : TaskPC
deriving DecidableEq, Repr

/-- State of the `MetadataService` instance, its backing store, and the
in-flight calls. `resolved` is the set of lock-promise ids whose resolver has
been called — `releaseLock` never adds to it. -/
structure MSState where
  store : List (String × SessionMetadata)
  locks : List (String × Nat)
  resolved : List Nat
  nextId : Nat
  tasks : List MSTask
deriving DecidableEq, Repr

def taskAt : List MSTask → Nat → Option MSTask
  | [], _ => none
  | t :: _, 0 => some t
  | _ :: rest, Nat.succ n => taskAt rest n

def listModify {α : Type} : List α → Nat → (α → α) → List α
  | [], _, _ => []
  | a :: rest, 0, f => f a :: rest
  | a :: rest, Nat.succ n, f => a :: listModify rest n f

def setTaskPC (s : MSState) (i : Nat) (pc : TaskPC) : MSState :=
  { s with tasks := listModify s.tasks i (fun t => { t with pc := pc }) }

/-- One cooperative step of task `i`, following the TypeScript between
suspension points. `acquiring`: the while-loop check of `acquireLock` — if the
key holds a lock promise, suspend on it, otherwise install a fresh unresolved
promise and hold the lock. `waitingOn p`: runnable only once `p` is resolved,
then re-check the loop. `locked`: the synchronous critical section
`readMetadata ?? {}`, shallow merge, `writeMetadata`, then `releaseLock`,
which deletes the lock-map entry without resolving the promise. Stepping a
non-runnable or missing task leaves the state unchanged. -/
def stepTask (s : MSState) (i : Nat) : MSState :=
  match taskAt s.tasks i with
  | none => s
  | some t =>
    match t.pc with
    | TaskPC.acquiring =>
      match mapGet s.locks t.sessionId with
      | some p => setTaskPC s i (TaskPC.waitingOn p)
      | none =>
        { setTaskPC s i TaskPC.locked with
            locks := mapSetL s.locks t.sessionId s.nextId,
            nextId := s.nextId + 1 }
    | TaskPC.waitingOn p =>
      if p ∈ s.resolved then setTaskPC s i TaskPC.acquiring else s
    | TaskPC.locked =>
      let existing := (mapGet s.store t.sessionId).getD []
      let merged := mergeRecord existing t.updates
      { setTaskPC s i TaskPC.done with
          store := mapSetL s.store t.sessionId merged,
          locks := mapDelete s.locks t.sessionId }
    | TaskPC.done => s

/-- Run a schedule: a list of task indices stepped in order. -/
def runSchedule (s : MSState) : List Nat → MSState
  | [] => s
  | i :: rest => runSchedule (stepTask s i) rest

/-- Initial state for two concurrent `updateMetadata` calls on the same key,
issued in order. -/
def initTwoUpdates (sessionId : String) (p1 p2 : SessionMetadata) : MSState :=
  { store := [], locks := [], resolved := [], nextId := 0,
    tasks := [⟨sessionId, p1, TaskPC.acquiring⟩, ⟨sessionId, p2, TaskPC.acquiring⟩] }

/-- The schedule Node.js actually produces for two concurrent calls: call 1
runs synchronously through `acquireLock` and takes the lock; call 2 runs
synchronously through `acquireLock` and suspends on call 1's lock promise;
call 1's continuation then performs the critical section and `releaseLock`. -/
def jsIssueOrder : List Nat := [0, 1, 0]

/-- The concrete failing input: two concurrent updates of session
`"session-1"`, the first patching `status`, the second patching
`dashboardPort`. -/
def msFailingInit : MSState :=
  initTwoUpdates "session-1" [("status", "working")] [("dashboardPort", "4000")]

theorem msStuck_step_fixed (i : Nat) :
    stepTask (runSchedule msFailingInit jsIssueOrder) i
      = runSchedule msFailingInit jsIssueOrder := by
  match i with
  | 0 => rfl
  | 1 => rfl
  | Nat.succ (Nat.succ n) => rfl

theorem msStuck_runSchedule_fixed (sched : List Nat) :
    runSchedule (runSchedule msFailingInit jsIssueOrder) sched
      = runSchedule msFailingInit jsIssueOrder := by
  induction sched with
  | nil => rfl
  | cons i rest ih => rw [runSchedule, msStuck_step_fixed i, ih]

/-- C1 fails on the code: of two concurrent `updateMetadata` calls on
`"session-1"`, the second is still suspended on lock promise 0 — and hence not
completed — after every possible continuation of the execution, because
`releaseLock` never resolves that promise; the claim's "all n calls complete"
is violated at n = 2. -/
theorem c1_second_update_never_completes (sched : List Nat) :
    (taskAt (runSchedule (runSchedule msFailingInit jsIssueOrder) sched).tasks 1).map
        MSTask.pc = some (TaskPC.waitingOn 0)
  ∧ (taskAt (runSchedule (runSchedule msFailingInit jsIssueOrder) sched).tasks 1).map
        MSTask.pc ≠ some TaskPC.done := by
  rw [msStuck_runSchedule_fixed]
  exact ⟨rfl, by decide⟩

/-- C2 fails on the code: after the first `updateMetadata` call completed,
`releaseLock` did delete the per-key lock-map entry (`locks = []`), but the
promise the queued second call awaits is never resolved (`resolved = []` in
every reachable continuation), so the queued waiter is never granted the lock
and the wait queue deadlocks. -/
theorem c2_queued_waiter_never_granted (sched : List Nat) :
    (runSchedule (runSchedule msFailingInit jsIssueOrder) sched).locks = []
  ∧ (runSchedule (runSchedule msFailingInit jsIssueOrder) sched).resolved = []
  ∧ (taskAt (runSchedule (runSchedule msFailingInit jsIssueOrder) sched).tasks 0).map
        MSTask.pc = some TaskPC.done
  ∧ (taskAt (runSchedule (runSchedule msFailingInit jsIssueOrder) sched).tasks 1).map
        MSTask.pc = some (TaskPC.waitingOn 0) := by
  rw [msStuck_runSchedule_fixed]
  exact ⟨rfl, rfl, rfl, rfl⟩

/-! Modelled from the spec: the implementation of `enrichSessionPR`
(`packages/web/src/lib/serialize.ts`) is not part of the visible source; only
REFACTORING_PLAN.md ("Fail-Safe Partial Data", the lines on
`Promise.allSettled`) and spec § 4.5 describe it: six independent sub-fetches
are issued in parallel and settled with `Promise.allSettled` — every outcome
is collected, with no short-circuit on the first failure — successful results
are merged into the output one by one, failed ones are omitted, and when at
least 50% of the calls failed the result is tagged rate-limited and annotated
with an explicit blocker message. -/

/-- The settled outcome of one sub-fetch, as `Promise.allSettled` reports it. -/
inductive FetchOutcome (α : Type) where
  | success (value : α)
  | failure
deriving DecidableEq, Repr

/-- The merged enrichment value: the successful fields in completion order,
the rate-limited/degraded tag, and the blocker annotations. -/
structure EnrichedResult (α : Type) where
  fields : List α
  rateLimited : Bool
  blockers : List String
deriving DecidableEq, Repr

/-- Extract the value of a successful settled outcome. -/
def FetchOutcome.value? {α : Type} : FetchOutcome α → Option α
  | FetchOutcome.success v => some v
  | FetchOutcome.failure => none

/-- Whether a settled outcome is a failure. -/
def FetchOutcome.isFailure {α : Type} : FetchOutcome α → Bool
  | FetchOutcome.success _ => false
  | FetchOutcome.failure => true

/-- Modelled from the spec: `enrichSessionPR` applied to the settled outcomes
of its sub-fetches. The whole settled list is consumed: each success is merged
into the accumulating result, each failure only increments the failure count;
the result is tagged rate-limited, with the explicit blocker message, exactly
when failures reach 50% of the fan-out. -/
def enrichSessionPR {α : Type} (settled : List (FetchOutcome α)) : EnrichedResult α :=
  let fields := settled.foldl
    (fun acc o =>
      match o with
      | FetchOutcome.success v => acc ++ [v]
      | FetchOutcome.failure => acc) []
  let failedCount := settled.foldl
    (fun n o =>
      match o with
      | FetchOutcome.success _ => n
      | FetchOutcome.failure => n + 1) 0
  let rateLimited := decide (2 * failedCount ≥ settled.length)
  { fields := fields,
    rateLimited := rateLimited,
    blockers := if rateLimited then ["API rate limited or unavailable"] else [] }

theorem enrich_fields_foldl {α : Type} (settled : List (FetchOutcome α)) :
    ∀ acc : List α,
      settled.foldl
        (fun acc o =>
          match o with
          | FetchOutcome.success v => acc ++ [v]
          | FetchOutcome.failure => acc) acc
      = acc ++ settled.filterMap FetchOutcome.value? := by
  induction settled with
  | nil => intro acc; simp
  | cons o rest ih =>
    intro acc
    cases o with
    | success v => simp [List.foldl, FetchOutcome.value?, ih (acc ++ [v])]
    | failure => simp [List.foldl, FetchOutcome.value?, ih acc]

theorem enrich_failed_foldl {α : Type} (settled : List (FetchOutcome α)) :
    ∀ n : Nat,
      settled.foldl
        (fun n o =>
          match o with
          | FetchOutcome.success _ => n
          | FetchOutcome.failure => n + 1) n
      = n + settled.countP FetchOutcome.isFailure := by
  induction settled with
  | nil => intro n; simp
  | cons o rest ih =>
    intro n
    cases o with
    | success v => rw [List.foldl, ih n, List.countP_cons]; simp [FetchOutcome.isFailure]
    | failure =>
      rw [List.foldl, ih (n + 1), List.countP_cons]
      simp [FetchOutcome.isFailure]
      omega

/-- C9: the enrichment fan-out consumes every settled sub-fetch (no
short-circuit): its merged fields are exactly the successful results in order
and the failed ones are omitted; it is tagged rate-limited, with the explicit
blocker message, exactly when at least half of the sub-fetches failed — in
particular 3 failures out of 6 give a degraded result carrying the 3
successful fields, while 1 failure out of 6 gives an undegraded result
carrying the 5 successful fields. -/
theorem c9_enrichment_fanout (settled : List (FetchOutcome Nat)) :
    (enrichSessionPR settled).fields = settled.filterMap FetchOutcome.value?
  ∧ ((enrichSessionPR settled).rateLimited = true
      ↔ 2 * settled.countP FetchOutcome.isFailure ≥ settled.length)
  ∧ ((enrichSessionPR settled).blockers = ["API rate limited or unavailable"]
      ↔ (enrichSessionPR settled).rateLimited = true)
  ∧ enrichSessionPR [FetchOutcome.success 1, FetchOutcome.failure,
        FetchOutcome.success 2, FetchOutcome.failure, FetchOutcome.success 3,
        FetchOutcome.failure]
      = ⟨[1, 2, 3], true, ["API rate limited or unavailable"]⟩
  ∧ enrichSessionPR [FetchOutcome.success 1, FetchOutcome.success 2,
        FetchOutcome.failure, FetchOutcome.success 3, FetchOutcome.success 4,
        FetchOutcome.success 5]
      = ⟨[1, 2, 3, 4, 5], false, []⟩ := by
  refine ⟨?_, ?_, ?_, by decide, by decide⟩
  · rw [enrichSessionPR]
    simpa using enrich_fields_foldl settled []
  · rw [enrichSessionPR]
    simp only [decide_eq_true_eq]
    rw [enrich_failed_foldl settled 0, Nat.zero_add]
  · rw [enrichSessionPR]
    by_cases h : (2 * settled.foldl
        (fun n o =>
          match o with
          | FetchOutcome.success _ => n
          | FetchOutcome.failure => n + 1) 0 ≥ settled.length)
    · simp [h]
    · simp [h]
